import Mathlib

/-!
Verification of the MyShell command-line engine (src/My_Shell/myshall.c).

The definitions below are a shallow embedding of the C source:
 * the parser (`parse_command`, myshall.c:167-311) over a string input and a
   model filesystem (a list of entry paths used for glob expansion),
 * the SIGCHLD handler (`sigchld_handler`, myshall.c:522-527) as the trace of
   actions it performs for a given list of reapable children,
 * the child descriptor wiring of `execute_multiple_pipes` (myshall.c:609-643)
   and `execute_system_command` (myshall.c:540-566),
 * the recursive tree operations (`recursive_delete`, myshall.c:673-713 and
   `recursive_copy`, myshall.c:718-798) as traces of filesystem syscalls over a
   model filesystem tree, together with the remaining tree after a delete,
 * the `mv -r` builtin branch (`execute_builtin`, myshall.c:445-447).
-/

/-! ## Tokenization (strtok / trimming, myshall.c:188-220) -/

/-- Whitespace characters used by the C code for trimming and tokenizing
(`" \t\n"`, myshall.c:205-207, 220). -/
def isWsChar (ch : Char) : Bool := ch = ' ' || ch = '\t' || ch = '\n'

/-- Accumulator-based splitter with C `strtok` semantics: maximal nonempty runs
of non-delimiter characters; leading, trailing and consecutive delimiters
produce no empty fields. -/
def tokensAux (p : Char → Bool) : List Char → List Char → List (List Char)
  | [], cur => if cur.isEmpty then [] else [cur.reverse]
  | ch :: cs, cur =>
    if p ch then
      if cur.isEmpty then tokensAux p cs [] else cur.reverse :: tokensAux p cs []
    else tokensAux p cs (ch :: cur)

/-- `strtok`-style split of a string on the characters satisfying `p`. -/
def strtokBy (p : Char → Bool) (s : String) : List String :=
  (tokensAux p s.data []).map String.mk

/-- Trimming of surrounding whitespace, as done per segment at
myshall.c:204-207. -/
def trimWs (s : String) : String :=
  String.mk (((s.data.dropWhile isWsChar).reverse.dropWhile isWsChar).reverse)

/-- The pipe-delimiter predicate of the split at myshall.c:189-192. -/
def isPipeChar (ch : Char) : Bool := ch = '|'

/-! ## Glob expansion (myshall.c:267-281)

The C code calls libc `glob` with `GLOB_NOCHECK` (no match returns the literal
pattern) and the default sorted output.  `matchGlobF` models the `*`/`?`/`[...]`
pattern language of glob over pathnames (`*` and `?` do not cross `/`); the
fuel argument only drives structural recursion and is always supplied large
enough (any call strictly decreases `pattern.length + string.length`). -/

/-- Bracket-expression membership: `[abc]` and ranges `[a-z]`. -/
def classMatches (ch : Char) : List Char → Bool
  | a :: '-' :: b :: rest => (decide (a ≤ ch) && decide (ch ≤ b)) || classMatches ch rest
  | a :: rest => (a == ch) || classMatches ch rest
  | [] => false

/-- Glob pattern matching over character lists (fueled). -/
def matchGlobF : Nat → List Char → List Char → Bool
  | 0, _, _ => false
  | _ + 1, [], s => s.isEmpty
  | fuel + 1, '*' :: ps, s =>
    matchGlobF fuel ps s ||
      (match s with
       | [] => false
       | ch :: rest => if ch = '/' then false else matchGlobF fuel ('*' :: ps) rest)
  | fuel + 1, '?' :: ps, ch :: rest =>
    if ch = '/' then false else matchGlobF fuel ps rest
  | _ + 1, '?' :: _, [] => false
  | fuel + 1, '[' :: ps, ch :: rest =>
    classMatches ch (ps.takeWhile (fun c2 => !(c2 = ']'))) &&
      matchGlobF fuel ((ps.dropWhile (fun c2 => !(c2 = ']'))).drop 1) rest
  | _ + 1, '[' :: _, [] => false
  | fuel + 1, pc :: ps, ch :: rest => (pc == ch) && matchGlobF fuel ps rest
  | _ + 1, _ :: _, [] => false

/-- Whether glob pattern `pat` matches the path `s`. -/
def matchGlob (pat s : String) : Bool :=
  matchGlobF (pat.data.length + s.data.length + 1) pat.data s.data

/-- The filesystem entries matching `pat`, in sorted order (libc `glob` sorts
its results; the filesystem is modelled as the list `fs` of entry paths). -/
def globMatchesSorted (fs : List String) (pat : String) : List String :=
  List.insertionSort (· ≤ ·) (fs.filter (fun entry => matchGlob pat entry))

/-- Result of the `glob` call with `GLOB_NOCHECK` (myshall.c:270): the sorted
matches, or the literal pattern when nothing matches. -/
def globFn (fs : List String) (pat : String) : List String :=
  let m := globMatchesSorted fs pat
  if m = [] then [pat] else m

/-- `strchr` test for glob metacharacters (myshall.c:268). -/
def hasWildcard (tok : String) : Bool :=
  tok.data.any (fun ch => ch = '*' || ch = '?' || ch = '[')

/-! ## Parser data model and `parse_command` (myshall.c:167-311) -/

/-- One pipeline stage: argument list plus optional redirections
(`args[c]`, `input_files[c]`, `output_files[c]`, `appends[c]`). -/
structure Seg where
  args : List String
  inputFile : Option String
  outputFile : Option String
  append : Bool
deriving DecidableEq, Repr

/-- Parse failures; the C function prints a message to stderr and returns 0
(myshall.c:226, 238, 250, 262, 194, 290). -/
inductive ParseErr
  | missingFile (op : String)
  | unexpectedAfterRedirect (tok : String)
  | noCommands
deriving DecidableEq, Repr

/-- A parsed pipeline: the stages and the pipeline-wide background flag. -/
structure Pipeline where
  stages : List Seg
  background : Bool
deriving DecidableEq, Repr

/-- The per-segment token loop of `parse_command` (myshall.c:220-284).
`i` is the running argument count (the C loop runs `while (token && i <
MAX_ARGS - 1)` with `MAX_ARGS = 64`), `prev` is the `prev_was_redirect` flag,
`acc` the stage built so far.  Returns the finished stage and whether this
segment set the background flag. -/
def procTokens (fs : List String) (isLast : Bool) :
    List String → Nat → Bool → Seg → Except ParseErr (Seg × Bool)
  | [], _, _, acc => .ok (acc, false)
  | tok :: rest, i, prev, acc =>
    if 63 ≤ i then .ok (acc, false)
    else if tok = ">" then
      match rest with
      | [] => .error (.missingFile ">")
      | f :: _ =>
        .ok ({ args := acc.args, inputFile := acc.inputFile,
               outputFile := some f, append := false }, false)
    else if tok = ">>" then
      match rest with
      | [] => .error (.missingFile ">>")
      | f :: _ =>
        .ok ({ args := acc.args, inputFile := acc.inputFile,
               outputFile := some f, append := true }, false)
    else if tok = "<" then
      match rest with
      | [] => .error (.missingFile "<")
      | f :: _ =>
        .ok ({ args := acc.args, inputFile := some f,
               outputFile := acc.outputFile, append := acc.append }, false)
    else if tok = "&" ∧ isLast = true then .ok (acc, true)
    else if prev then .error (.unexpectedAfterRedirect tok)
    else
      let add := if hasWildcard tok then globFn fs tok else [tok]
      let k := min add.length (63 - i)
      procTokens fs isLast rest (i + k) false
        { args := acc.args ++ add.take k, inputFile := acc.inputFile,
          outputFile := acc.outputFile, append := acc.append }

/-- The per-segment loop of `parse_command` (myshall.c:199-287).  `n0` is the
segment count fixed at myshall.c:193 (`*num_commands`), `c` the current index;
a segment that trims to empty truncates the pipeline (`*num_commands = c;
break;`, myshall.c:208-211). -/
def parseLoop (fs : List String) (n0 : Nat) :
    List String → Nat → Except ParseErr (List Seg × Bool)
  | [], _ => .ok ([], false)
  | segStr :: rest, c =>
    let t := trimWs segStr
    if t = "" then .ok ([], false)
    else
      match procTokens fs (c + 1 = n0) (strtokBy isWsChar t) 0 false
          ⟨[], none, none, false⟩ with
      | .error e => .error e
      | .ok (seg, bg1) =>
        match parseLoop fs n0 rest (c + 1) with
        | .error e => .error e
        | .ok (segs, bg2) => .ok (seg :: segs, bg1 || bg2)

/-- `parse_command` (myshall.c:167-311).  The pipe split at myshall.c:189-192
(`while (cmd_tokens[cmd_idx] && cmd_idx < MAX_PIPES - 1)` with
`MAX_PIPES = 10`) retains at most `MAX_PIPES - 1 = 9` segments; the rest of
the line is dropped without an error. -/
def parse_command (fs : List String) (line : String) : Except ParseErr Pipeline :=
  let segs := strtokBy isPipeChar line
  let n0 := min segs.length 9
  if n0 = 0 then .error .noCommands
  else
    match parseLoop fs n0 (segs.take 9) 0 with
    | .error e => .error e
    | .ok (stages, bg) =>
      if stages.length = 0 then .error .noCommands
      else .ok ⟨stages, bg⟩

/-! ## SIGCHLD handler (myshall.c:522-527)

The handler is modelled as the trace of actions it performs given the list of
currently terminated, not-yet-reaped children (`waitpid(-1, NULL, WNOHANG)`
returns them one by one until none remain). -/

/-- An action taken inside the asynchronous completion handler. -/
inductive HandlerStep
  | waitpidReap (pid : Nat)
  | stdioOutput (pid : Nat)
  | recordToHandoff (pid : Nat)
deriving DecidableEq, Repr

/-- Actions that are unsafe at arbitrary interruption points: buffered stdio
output (`printf`). -/
def isAsyncUnsafe : HandlerStep → Bool
  | .stdioOutput _ => true
  | _ => false

/-- Whether the step records a pid into a signal-safe handoff structure for the
main loop (the design the specification demands; the C handler has no such
structure). -/
def isHandoffRecord : HandlerStep → Bool
  | .recordToHandoff _ => true
  | _ => false

/-- `sigchld_handler` (myshall.c:522-527): the `while (waitpid(...)) > 0` loop
reaps each terminated child and immediately calls
`printf("[PID %d] Completed\n", pid)` from inside the handler. -/
def sigchld_handler (zombies : List Nat) : List HandlerStep :=
  (zombies.map (fun pid => [HandlerStep.waitpidReap pid, HandlerStep.stdioOutput pid])).flatten

/-! ## Child descriptor wiring (myshall.c:540-566, 609-643) -/

/-- Where the standard input of a pipeline stage comes from. -/
inductive StdSrc
  | inherit
  | fromFile (name : String)
  | fromPipe (fd : Nat)
deriving DecidableEq, Repr

/-- Where the standard output of a pipeline stage goes. -/
inductive StdDst
  | inherit
  | toFile (name : String) (append : Bool)
  | toPipe (fd : Nat)
deriving DecidableEq, Repr

/-- Stdin wiring of child `i` in `execute_multiple_pipes` (myshall.c:612-624):
the input redirection, when present, is dup2-ed over stdin; only otherwise is
the read end of the preceding pipe (`pipefd[(i-1)*2]`) used. -/
def childStdin (i : Nat) (inputFile : Option String) : StdSrc :=
  match inputFile with
  | some f => .fromFile f
  | none => if 0 < i then .fromPipe ((i - 1) * 2) else .inherit

/-- Stdout wiring of child `i` of `n` in `execute_multiple_pipes`
(myshall.c:625-639): the output redirection, when present, is dup2-ed over
stdout; only otherwise is the write end of the following pipe (`pipefd[i*2+1]`)
used. -/
def childStdout (i n : Nat) (outputFile : Option String) (append : Bool) : StdDst :=
  match outputFile with
  | some f => .toFile f append
  | none => if i < n - 1 then .toPipe (i * 2 + 1) else .inherit

/-- Stdin wiring of the single-stage `execute_system_command` child
(myshall.c:543-549). -/
def singleStdin (inputFile : Option String) : StdSrc :=
  match inputFile with
  | some f => .fromFile f
  | none => .inherit

/-- Stdout wiring of the single-stage `execute_system_command` child
(myshall.c:551-559). -/
def singleStdout (outputFile : Option String) (append : Bool) : StdDst :=
  match outputFile with
  | some f => .toFile f append
  | none => .inherit

/-! ## Tree operations (myshall.c:673-798)

The filesystem is modelled as a tree; a `symlink` node carries its resolved
target inline (libc `stat` and `opendir` follow symbolic links, `lstat` would
not — the code uses `stat`).  Both operations are embedded as the trace of
filesystem syscalls they issue; `recursive_delete` additionally returns the
tree that remains at the given path (`none` = fully removed). -/

/-- Model filesystem node. -/
inductive FsTree
  | file (perm : Nat) (content : List Nat)
  | dir (perm : Nat) (children : List (String × FsTree))
  | symlink (target : FsTree)

/-- Errors reported to stderr by the tree operations. -/
inductive TErr
  | maxRecursion
  | pathTooLong
  | destPathTooLong
  | typeMismatch
  | rmdirFailed
deriving DecidableEq, Repr

/-- A filesystem syscall issued by a tree operation, or an error report. -/
inductive FsOp
  | statQ (path : String)
  | opendirOp (path : String)
  | unlink (path : String)
  | rmdirOp (path : String)
  | mkdirOp (path : String) (perm : Nat)
  | openRead (path : String)
  | openWrite (path : String) (perm : Nat)
  | report (e : TErr)
deriving DecidableEq, Repr

/-- Whether an operation is an error report. -/
def isReport : FsOp → Bool
  | .report _ => true
  | _ => false

/-- Full symlink resolution, as performed by `stat`/`opendir`. -/
def resolve : FsTree → FsTree
  | .symlink t => resolve t
  | t => t

/-- Whether the node itself (without following links, as `lstat` would see it)
is a directory; `rmdir` succeeds only on such a node when it is empty. -/
def isRealDir : FsTree → Bool
  | .dir _ _ => true
  | _ => false

/-- Immediate children of a node. -/
def childrenOf : FsTree → List (String × FsTree)
  | .dir _ cs => cs
  | _ => []

/-- The checked path composition `snprintf(buf, MAX_PATH, "%s/%s", a, b)` with
its `>= sizeof(buf)` overflow test (myshall.c:697, 750-751, 768); `MAX_PATH =
512`.  Overflow yields `none` (an explicit error at the call sites), never a
truncated string. -/
def joinPath (a b : String) : Option String :=
  let j := a ++ "/" ++ b
  if 512 ≤ j.length then none else some j

/-- The `strncpy(final_dest, dest, sizeof(final_dest))` fallback of
`recursive_copy` (myshall.c:774): the given destination is copied into a
512-byte buffer with no overflow check (an over-long destination would be
silently cut off, and not even NUL-terminated). -/
def strncpyDest (dest : String) : String :=
  if dest.length < 512 then dest else String.mk (dest.data.take 512)

/-- `strrchr(src, '/') ? strrchr(src, '/') + 1 : src` (myshall.c:768): the
component after the last slash, or the whole string. -/
def basenameOf (s : String) : String :=
  String.mk ((s.data.reverse.takeWhile (fun ch => !(ch = '/'))).reverse)

mutual

/-- `recursive_delete` (myshall.c:673-713): returns the syscall trace and the
tree remaining at `path` (`none` = removed).  The depth guard is
myshall.c:675-678 (`depth > MAX_RECURSION`, `MAX_RECURSION = 100`). -/
def recursive_delete (path : String) (t : FsTree) (depth : Nat) :
    List FsOp × Option FsTree :=
  if 100 < depth then ([.report .maxRecursion], some t)
  else deleteStat path t depth false
termination_by (sizeOf t, 2)

/-- The body of `recursive_delete` after the depth guard: `stat(path)`
(myshall.c:681 — `stat`, which follows symbolic links) and the directory/file
dispatch.  `viaLink` records whether the dispatch reached this node through a
symbolic link, in which case the final `rmdir(path)` operates on the link and
fails with `ENOTDIR` (myshall.c:705-707). -/
def deleteStat (path : String) (t : FsTree) (depth : Nat) (viaLink : Bool) :
    List FsOp × Option FsTree :=
  match t with
  | .file _ _ => ([.statQ path, .unlink path], none)
  | .symlink tgt =>
    let r := deleteStat path tgt depth true
    (r.1, match r.2 with
          | some rem => some (.symlink rem)
          | none => none)
  | .dir p cs =>
    let r := deleteKids path cs depth
    if r.2.2 then
      ([.statQ path, .opendirOp path] ++ r.1, some (.dir p r.2.1))
    else if r.2.1.isEmpty && !viaLink then
      ([.statQ path, .opendirOp path] ++ r.1 ++ [.rmdirOp path], none)
    else
      ([.statQ path, .opendirOp path] ++ r.1 ++ [.rmdirOp path, .report .rmdirFailed],
       some (.dir p r.2.1))
termination_by (sizeOf t, 1)

/-- The `readdir` loop of `recursive_delete` (myshall.c:692-703): for each
child, compose `path/name` with the checked `snprintf` (myshall.c:697); on
overflow report the error and abort the scan (`closedir(dir); return;`,
myshall.c:698-700).  Returns the trace, the children that remain, and whether
the scan was aborted (in which case the `rmdir` of the parent is skipped). -/
def deleteKids (path : String) (cs : List (String × FsTree)) (depth : Nat) :
    List FsOp × List (String × FsTree) × Bool :=
  match cs with
  | [] => ([], [], false)
  | (name, c) :: rest =>
    match joinPath path name with
    | none => ([.report .pathTooLong], (name, c) :: rest, true)
    | some cp =>
      let rc := recursive_delete cp c (depth + 1)
      let rr := deleteKids path rest depth
      (rc.1 ++ rr.1,
       (match rc.2 with
        | some rem => [(name, rem)]
        | none => []) ++ rr.2.1,
       rr.2.2)
termination_by (sizeOf cs, 2)

end

/-- `stat(dest)` existence/kind test of the directory branch of
`recursive_copy` (myshall.c:731): destination exists but is not a directory
(`stat` follows symbolic links). -/
def destExistsNonDir : Option FsTree → Bool
  | none => false
  | some d => !(isRealDir (resolve d))

/-- `stat(dest)` test of the file branch of `recursive_copy` (myshall.c:767):
destination exists and is a directory. -/
def destIsDir : Option FsTree → Bool
  | none => false
  | some d => isRealDir (resolve d)

/-- Children of the pre-existing destination node, if it resolves to a
directory (used to look up what already exists at a composed destination
path). -/
def destChildren : Option FsTree → List (String × FsTree)
  | none => []
  | some d => childrenOf (resolve d)

mutual

/-- `recursive_copy` (myshall.c:718-798): the syscall trace of copying the
tree `src` (located at `srcPath`) onto `destPath`, where `dest` is the node
currently existing at `destPath` (`none` if absent).  Depth guard:
myshall.c:720-723. -/
def recursive_copy (src : FsTree) (srcPath : String) (dest : Option FsTree)
    (destPath : String) (depth : Nat) : List FsOp :=
  if 100 < depth then [.report .maxRecursion]
  else copyStat src srcPath dest destPath depth
termination_by (sizeOf src, 2)

/-- The body of `recursive_copy` after the depth guard: `stat(src)`
(myshall.c:725, follows symbolic links, so a link is copied as its target)
and the directory/file dispatch. -/
def copyStat (src : FsTree) (srcPath : String) (dest : Option FsTree)
    (destPath : String) (depth : Nat) : List FsOp :=
  match src with
  | .symlink tgt => copyStat tgt srcPath dest destPath depth
  | .dir p _cs =>
    if destExistsNonDir dest then
      [.statQ srcPath, .statQ destPath, .report .typeMismatch]
    else
      [.statQ srcPath, .statQ destPath, .mkdirOp destPath p, .opendirOp srcPath] ++
        copyKids srcPath destPath _cs (destChildren dest) depth
  | .file p _content =>
    match (if destIsDir dest then joinPath destPath (basenameOf srcPath)
           else some (strncpyDest destPath)) with
    | none => [.statQ srcPath, .openRead srcPath, .statQ destPath, .report .destPathTooLong]
    | some fin => [.statQ srcPath, .openRead srcPath, .statQ destPath, .openWrite fin p]
termination_by (sizeOf src, 1)

/-- The `readdir` loop of `recursive_copy` (myshall.c:745-757): for each
child, both `src/name` and `dest/name` are composed with checked `snprintf`s
(myshall.c:750-751); overflow of either reports the error and aborts the scan
(`closedir(dir); return;`, myshall.c:752-754). -/
def copyKids (srcPath destPath : String) (cs destCs : List (String × FsTree))
    (depth : Nat) : List FsOp :=
  match cs with
  | [] => []
  | (name, c) :: rest =>
    match joinPath srcPath name, joinPath destPath name with
    | some sp, some dp =>
      recursive_copy c sp (destCs.lookup name) dp (depth + 1) ++
        copyKids srcPath destPath rest destCs depth
    | _, _ => [.report .pathTooLong]
termination_by (sizeOf cs, 2)

end

/-- The `mv -r` branch of `execute_builtin` (myshall.c:445-447): a recursive
copy of the source to the destination followed unconditionally by a recursive
delete of the source.  Both tree operations are `void` in the C code, so no
failure of the copy can influence the delete.  Returns the combined trace and
what remains of the source. -/
def builtin_mv_recursive (srcT : FsTree) (srcPath : String) (destT : Option FsTree)
    (destPath : String) : List FsOp × Option FsTree :=
  let cOps := recursive_copy srcT srcPath destT destPath 0
  let d := recursive_delete srcPath srcT 0
  (cOps ++ d.1, d.2)
-- helper lemmas + claim theorems, developed against the definitions
theorem procTokens_args_bound (fs : List String) (isLast : Bool)
    (toks : List String) :
    ∀ (i : Nat) (prev : Bool) (acc : Seg), acc.args.length = i → i ≤ 63 →
      ∀ s bg, procTokens fs isLast toks i prev acc = Except.ok (s, bg) →
        s.args.length ≤ 63 := by
  induction toks with
  | nil =>
    intro i prev acc hlen hle s bg h
    simp only [procTokens, Except.ok.injEq, Prod.mk.injEq] at h
    obtain ⟨rfl, -⟩ := h
    omega
  | cons tok rest ih =>
    intro i prev acc hlen hle s bg h
    simp only [procTokens] at h
    split at h
    · simp only [Except.ok.injEq, Prod.mk.injEq] at h
      obtain ⟨rfl, -⟩ := h
      omega
    · split at h
      · cases rest with
        | nil => cases h
        | cons f r =>
          simp only [Except.ok.injEq, Prod.mk.injEq] at h
          obtain ⟨rfl, -⟩ := h
          simpa using hlen ▸ hle
      · split at h
        · cases rest with
          | nil => cases h
          | cons f r =>
            simp only [Except.ok.injEq, Prod.mk.injEq] at h
            obtain ⟨rfl, -⟩ := h
            simpa using hlen ▸ hle
        · split at h
          · cases rest with
            | nil => cases h
            | cons f r =>
              simp only [Except.ok.injEq, Prod.mk.injEq] at h
              obtain ⟨rfl, -⟩ := h
              simpa using hlen ▸ hle
          · split at h
            · simp only [Except.ok.injEq, Prod.mk.injEq] at h
              obtain ⟨rfl, -⟩ := h
              omega
            · split at h
              · cases h
              · refine ih _ _ _ ?_ ?_ s bg h
                · simp only [List.length_append, List.length_take]
                  omega
                · omega

theorem parseLoop_stage_bounds (fs : List String) (n0 : Nat) (l : List String) :
    ∀ (c : Nat) (S : List Seg) (bg : Bool),
      parseLoop fs n0 l c = Except.ok (S, bg) →
      S.length ≤ l.length ∧ ∀ s ∈ S, s.args.length ≤ 63 := by
  induction l with
  | nil =>
    intro c S bg h
    simp only [parseLoop, Except.ok.injEq, Prod.mk.injEq] at h
    obtain ⟨rfl, -⟩ := h
    simp
  | cons segStr rest ih =>
    intro c S bg h
    simp only [parseLoop] at h
    split at h
    · simp only [Except.ok.injEq, Prod.mk.injEq] at h
      obtain ⟨rfl, -⟩ := h
      simp
    · cases hp : procTokens fs (c + 1 = n0) (strtokBy isWsChar (trimWs segStr)) 0 false
          ⟨[], none, none, false⟩ with
      | error e => rw [hp] at h; cases h
      | ok p =>
        rw [hp] at h
        obtain ⟨s1, bg1⟩ := p
        cases hr : parseLoop fs n0 rest (c + 1) with
        | error e => rw [hr] at h; cases h
        | ok q =>
          rw [hr] at h
          obtain ⟨S2, bg2⟩ := q
          simp only [Except.ok.injEq, Prod.mk.injEq] at h
          obtain ⟨rfl, -⟩ := h
          obtain ⟨hl, hall⟩ := ih (c + 1) S2 bg2 hr
          refine ⟨by simpa using Nat.succ_le_succ hl, ?_⟩
          intro s hs
          rcases List.mem_cons.mp hs with rfl | hs2
          · exact procTokens_args_bound fs (c + 1 = n0)
              (strtokBy isWsChar (trimWs segStr)) 0 false ⟨[], none, none, false⟩
              rfl (by omega) s bg1 hp
          · exact hall s hs2

theorem parseLoop_append_empty (fs : List String) (n0 : Nat) (segEmpty : String)
    (hEmpty : trimWs segEmpty = "") (rest2 : List String) :
    ∀ (pre : List String) (c : Nat),
      parseLoop fs n0 (pre ++ segEmpty :: rest2) c = parseLoop fs n0 pre c := by
  intro pre
  induction pre with
  | nil => intro c; simp [parseLoop, hEmpty]
  | cons p pre2 ih =>
    intro c
    simp only [List.cons_append, parseLoop, List.append_eq, ih]

theorem parseLoop_ok_length (fs : List String) (n0 : Nat) :
    ∀ (l : List String), (∀ b, b < l.length → trimWs (l.getD b "") ≠ "") →
      ∀ (c : Nat) (S : List Seg) (bg : Bool),
        parseLoop fs n0 l c = Except.ok (S, bg) → S.length = l.length := by
  intro l
  induction l with
  | nil =>
    intro _ c S bg h
    simp only [parseLoop, Except.ok.injEq, Prod.mk.injEq] at h
    obtain ⟨rfl, -⟩ := h
    rfl
  | cons segStr rest ih =>
    intro hne c S bg h
    simp only [parseLoop] at h
    split at h
    · rename_i hemp
      exact absurd hemp (by simpa using hne 0 (by simp))
    · cases hp : procTokens fs (c + 1 = n0) (strtokBy isWsChar (trimWs segStr)) 0 false
          ⟨[], none, none, false⟩ with
      | error e => rw [hp] at h; cases h
      | ok p =>
        rw [hp] at h
        obtain ⟨s1, bg1⟩ := p
        cases hr : parseLoop fs n0 rest (c + 1) with
        | error e => rw [hr] at h; cases h
        | ok q =>
          rw [hr] at h
          obtain ⟨S2, bg2⟩ := q
          simp only [Except.ok.injEq, Prod.mk.injEq] at h
          obtain ⟨rfl, -⟩ := h
          have := ih (fun b hb => by simpa using hne (b + 1) (by simpa using hb))
            (c + 1) S2 bg2 hr
          simp [this]

theorem list_decomp_getD (l : List String) :
    ∀ (c : Nat), c < l.length → l = l.take c ++ l.getD c "" :: l.drop (c + 1) := by
  induction l with
  | nil => intro c hc; cases hc
  | cons x xs ih =>
    intro c hc
    cases c with
    | zero => simp
    | succ c2 =>
      simp only [List.take_succ_cons, List.getD_cons_succ, List.drop_succ_cons,
        List.cons_append]
      exact congrArg (List.cons x) (ih c2 (by simpa using hc))

theorem take_getD (l : List String) :
    ∀ (b c : Nat), b < c → (l.take c).getD b "" = l.getD b "" := by
  induction l with
  | nil => intro b c _; simp
  | cons x xs ih =>
    intro b c hbc
    cases c with
    | zero => omega
    | succ c2 =>
      cases b with
      | zero => simp
      | succ b2 =>
        simp only [List.take_succ_cons, List.getD_cons_succ]
        exact ih b2 c2 (by omega)

/-- Claim C1: the SIGCHLD handler performs no buffered output and only records
reaped pids into a signal-safe handoff.  The code does the opposite: for a
reapable child the action trace of the handler contains a buffered `printf`
(`stdioOutput`) and no handoff record at all (myshall.c:524-526). -/
theorem C1_handler_does_buffered_output :
    sigchld_handler [1234] = [.waitpidReap 1234, .stdioOutput 1234] ∧
    (sigchld_handler [1234]).any isAsyncUnsafe = true ∧
    (sigchld_handler [1234]).all (fun st => !(isHandoffRecord st)) = true := by
  decide

/-- Claim C2: a token after a redirection clause should be a ParseError.  The
code instead accepts the line: on `cat > out extra` the parser succeeds,
keeps the redirection and silently drops `extra`, because every redirection
branch `break`s out of the token loop (myshall.c:234, 246, 257) so the
`prev_was_redirect` error branch (myshall.c:261-266) is unreachable. -/
theorem C2_token_after_redirect_accepted :
    parse_command [] "cat > out extra" =
      Except.ok ⟨[⟨["cat"], none, some "out", false⟩], false⟩ := by
  rfl

/-- Claim C3 counterexample: an eleven-stage line should be a parse error
(stage limit 10); instead `parse_command` succeeds and silently truncates the
pipeline to 9 stages (the split at myshall.c:190-192 retains at most
`MAX_PIPES - 1 = 9` segments). -/
theorem C3_eleven_stages_no_error :
    parse_command [] "a|b|c|d|e|f|g|h|i|j|k" =
      Except.ok ⟨[⟨["a"], none, none, false⟩, ⟨["b"], none, none, false⟩,
        ⟨["c"], none, none, false⟩, ⟨["d"], none, none, false⟩,
        ⟨["e"], none, none, false⟩, ⟨["f"], none, none, false⟩,
        ⟨["g"], none, none, false⟩, ⟨["h"], none, none, false⟩,
        ⟨["i"], none, none, false⟩], false⟩ := by
  rfl

/-- Claim C3 (amended): exceeding the capacity limits is not a parse error;
the parser silently truncates instead, so every successfully parsed pipeline
has at most 9 stages and at most 63 arguments per stage. -/
theorem C3_amended_silent_truncation (fs : List String) (line : String)
    (P : Pipeline) (h : parse_command fs line = Except.ok P) :
    P.stages.length ≤ 9 ∧ ∀ s ∈ P.stages, s.args.length ≤ 63 := by
  simp only [parse_command] at h
  split at h
  · cases h
  · split at h
    · cases h
    · split at h
      · cases h
      · simp only [Except.ok.injEq] at h
        subst h
        rename_i S bg heq hne
        obtain ⟨hl, hall⟩ := parseLoop_stage_bounds fs
          (min (strtokBy isPipeChar line).length 9)
          ((strtokBy isPipeChar line).take 9) 0 S bg heq
        exact ⟨le_trans hl (by simp), hall⟩

/-- Witness for the amended C3 theorem at the concrete line `a`. -/
theorem C3_amended_witness :
    (⟨[⟨["a"], none, none, false⟩], false⟩ : Pipeline).stages.length ≤ 9 :=
  (C3_amended_silent_truncation [] "a" ⟨[⟨["a"], none, none, false⟩], false⟩ rfl).1

/-- Claim C6: the redirection of a stage, when present, always wins over pipe
linkage: in both the multi-stage wiring (`childStdin`/`childStdout`,
myshall.c:612-639) and the single-stage wiring (`singleStdin`/`singleStdout`,
myshall.c:543-559), a present redirection file is what the standard stream is
connected to, never the neighbouring pipe end. -/
theorem C6_redirection_overrides_pipe (i n : Nat) (inf outf : Option String)
    (app : Bool) (f : String) :
    (inf = some f → childStdin i inf = .fromFile f ∧ singleStdin inf = .fromFile f) ∧
    (outf = some f → childStdout i n outf app = .toFile f app ∧
      singleStdout outf app = .toFile f app) := by
  constructor
  · rintro rfl
    exact ⟨rfl, rfl⟩
  · rintro rfl
    exact ⟨rfl, rfl⟩

/-- Witness for C6 on a concrete middle stage with both redirections. -/
theorem C6_witness :
    childStdin 1 (some "in") = .fromFile "in" ∧
      childStdout 1 3 (some "out") false = .toFile "out" false :=
  ⟨((C6_redirection_overrides_pipe 1 3 (some "in") (some "out") false "in").1 rfl).1,
   ((C6_redirection_overrides_pipe 1 3 (some "in") (some "out") false "out").2 rfl).1⟩

/-- Claim C9 counterexample: a `&` that is not the final token still sets the
background flag when it occurs anywhere in the final segment: `echo a & b`
parses successfully with `background = true` and the trailing `b` silently
dropped (myshall.c:258-260 `break`s on `&` wherever it appears in the last
segment). -/
theorem C9_amp_mid_segment_sets_background :
    parse_command [] "echo a & b" =
      Except.ok ⟨[⟨["echo", "a"], none, none, false⟩], true⟩ := by
  rfl

/-- Claim C9 (amended): a `&` token anywhere in the final segment sets the
pipeline-wide background flag and terminates parsing of that segment
(discarding any following tokens); a `&` in a non-final segment does not set
the flag and is kept as an ordinary literal argument. -/
theorem C9_amended_amp_semantics (fs : List String) (rest : List String)
    (i : Nat) (acc : Seg) (hi : i < 63) :
    procTokens fs true ("&" :: rest) i false acc = Except.ok (acc, true) ∧
    procTokens fs false ("&" :: rest) i false acc =
      procTokens fs false rest (i + 1) false
        { args := acc.args ++ ["&"], inputFile := acc.inputFile,
          outputFile := acc.outputFile, append := acc.append } := by
  constructor
  · simp only [procTokens]
    rw [if_neg (by omega), if_neg (by decide), if_neg (by decide),
      if_neg (by decide), if_pos (by simp)]
  · simp only [procTokens]
    rw [if_neg (by omega), if_neg (by decide), if_neg (by decide),
      if_neg (by decide), if_neg (by simp), if_neg (by simp)]
    have hw : hasWildcard "&" = false := by decide
    rw [hw]
    simp only [Bool.false_eq_true, if_false, List.length_cons, List.length_nil]
    rw [Nat.min_eq_left (by omega)]
    simp [List.take]

/-- Witness for the amended C9 theorem: a lone `&` in the final segment. -/
theorem C9_amended_witness :
    procTokens [] true ["&"] 0 false ⟨[], none, none, false⟩ =
      Except.ok (⟨[], none, none, false⟩, true) :=
  (C9_amended_amp_semantics [] [] 0 ⟨[], none, none, false⟩ (by decide)).1

/-- Claim C7: an empty (whitespace-only) pipe segment is not an error for that
segment; the pipeline is truncated to the stages before it (myshall.c:208-211),
and if that leaves zero stages the parse fails (myshall.c:290-292).  Here `c`
is the index of the first empty segment among the (at most 9) retained
segments: if `c = 0` the parse reports the zero-stage error, and if `c > 0`
the parse succeeds with exactly the stages produced from the first `c`
segments. -/
theorem C7_empty_segment_truncates (fs : List String) (line : String) (c : Nat)
    (hc : c < ((strtokBy isPipeChar line).take 9).length)
    (he : trimWs (((strtokBy isPipeChar line).take 9).getD c "") = "")
    (hfirst : ∀ b, b < c →
      trimWs (((strtokBy isPipeChar line).take 9).getD b "") ≠ "") :
    (c = 0 → parse_command fs line = Except.error .noCommands) ∧
    ∀ (S : List Seg) (bg : Bool),
      parseLoop fs (min (strtokBy isPipeChar line).length 9)
          (((strtokBy isPipeChar line).take 9).take c) 0 = Except.ok (S, bg) →
      0 < c → parse_command fs line = Except.ok ⟨S, bg⟩ := by
  have hlen : ((strtokBy isPipeChar line).take 9).length =
      min 9 (strtokBy isPipeChar line).length := List.length_take 9 _
  have hn0 : ¬ (min (strtokBy isPipeChar line).length 9 = 0) := by
    have h1 : 0 < ((strtokBy isPipeChar line).take 9).length :=
      Nat.lt_of_le_of_lt (Nat.zero_le c) hc
    rw [hlen] at h1
    omega
  have hdecomp : (strtokBy isPipeChar line).take 9 =
      ((strtokBy isPipeChar line).take 9).take c ++
        ((strtokBy isPipeChar line).take 9).getD c "" ::
          ((strtokBy isPipeChar line).take 9).drop (c + 1) :=
    list_decomp_getD _ c hc
  have hloop : parseLoop fs (min (strtokBy isPipeChar line).length 9)
      ((strtokBy isPipeChar line).take 9) 0 =
      parseLoop fs (min (strtokBy isPipeChar line).length 9)
        (((strtokBy isPipeChar line).take 9).take c) 0 := by
    conv_lhs => rw [hdecomp]
    exact parseLoop_append_empty fs _ _ he _ _ 0
  constructor
  · rintro rfl
    simp only [parse_command]
    rw [if_neg hn0, hloop]
    simp [parseLoop]
  · intro S bg hpl hcpos
    have hSlen : S.length = c := by
      have htc : (((strtokBy isPipeChar line).take 9).take c).length = c := by
        rw [List.length_take]
        omega
      have := parseLoop_ok_length fs (min (strtokBy isPipeChar line).length 9)
        (((strtokBy isPipeChar line).take 9).take c)
        (fun b hb => by
          rw [htc] at hb
          rw [take_getD _ b c hb]
          exact hfirst b hb) 0 S bg hpl
      omega
    simp only [parse_command]
    rw [if_neg hn0, hloop, hpl]
    simp only [Except.ok.injEq]
    rw [if_neg (by omega)]

/-- Witness for C7 at the line `a | | b`: the empty middle segment truncates
the pipeline to the single stage `a` without an error. -/
theorem C7_witness :
    parse_command [] "a | | b" =
      Except.ok ⟨[⟨["a"], none, none, false⟩], false⟩ :=
  (C7_empty_segment_truncates [] "a | | b" 1 (by decide) (by decide)
    (by decide)).2 [⟨["a"], none, none, false⟩] false (by rfl) (by decide)

/-- Claim C8: a token containing a glob metacharacter that matches nothing is
kept as a single literal argument equal to the original token
(`GLOB_NOCHECK`, myshall.c:270); when it matches, the token is replaced by
the matches in sorted order, and the token loop appends exactly that
expansion (within the argument capacity) to the arguments of the stage
(myshall.c:269-278). -/
theorem C8_glob_literal_or_sorted (fs : List String) (tok : String)
    (hw : hasWildcard tok = true) :
    (globMatchesSorted fs tok = [] → globFn fs tok = [tok]) ∧
    (globMatchesSorted fs tok ≠ [] → globFn fs tok = globMatchesSorted fs tok) ∧
    List.Sorted (· ≤ ·) (globMatchesSorted fs tok) ∧
    ∀ (isLast : Bool) (rest : List String) (i : Nat) (acc : Seg),
      i < 63 → (globFn fs tok).length ≤ 63 - i →
      procTokens fs isLast (tok :: rest) i false acc =
        procTokens fs isLast rest (i + (globFn fs tok).length) false
          { args := acc.args ++ globFn fs tok, inputFile := acc.inputFile,
            outputFile := acc.outputFile, append := acc.append } := by
  have hne1 : tok ≠ ">" := by rintro rfl; exact absurd hw (by decide)
  have hne2 : tok ≠ ">>" := by rintro rfl; exact absurd hw (by decide)
  have hne3 : tok ≠ "<" := by rintro rfl; exact absurd hw (by decide)
  have hne4 : tok ≠ "&" := by rintro rfl; exact absurd hw (by decide)
  refine ⟨?_, ?_, ?_, ?_⟩
  · intro h
    simp [globFn, h]
  · intro h
    simp [globFn, h]
  · exact List.sorted_insertionSort _ _
  · intro isLast rest i acc hi hcap
    simp only [procTokens]
    rw [if_neg (by omega), if_neg hne1, if_neg hne2, if_neg hne3,
      if_neg (by simp [hne4]), if_neg (by simp), if_pos hw]
    rw [Nat.min_eq_left hcap, List.take_length]

/-- Witness for C8: the pattern `a*` over an empty filesystem matches nothing
and is kept literally. -/
theorem C8_witness :
    globFn [] "a*" = ["a*"] :=
  (C8_glob_literal_or_sorted [] "a*" (by decide)).1 rfl

/-- Claim C4: in both tree operations every composed path is built through the
checked `snprintf` join (`joinPath`): a successful join is the exact,
untruncated concatenation and fits in `MAX_PATH = 512`; an over-long
composition yields an explicit `path too long` error at every composition
site — the `readdir` loops of `recursive_delete` (myshall.c:697-700) and
`recursive_copy` (myshall.c:750-754), and the file-into-directory destination
of `recursive_copy` (myshall.c:768-771) — and the operation never proceeds
with a truncated path. -/
theorem C4_composed_paths_never_truncated :
    (∀ (a b s : String), joinPath a b = some s →
      s = a ++ "/" ++ b ∧ s.length < 512) ∧
    ∀ (parent name : String), 512 ≤ (parent ++ "/" ++ name).length →
      joinPath parent name = none ∧
      (∀ (child : FsTree) (rest : List (String × FsTree)) (depth : Nat),
        deleteKids parent ((name, child) :: rest) depth =
          ([.report .pathTooLong], (name, child) :: rest, true)) ∧
      (∀ (other : String) (child : FsTree) (rest destCs : List (String × FsTree))
          (depth : Nat),
        copyKids parent other ((name, child) :: rest) destCs depth =
            [.report .pathTooLong] ∧
        copyKids other parent ((name, child) :: rest) destCs depth =
            [.report .pathTooLong]) ∧
      ∀ (p : Nat) (content : List Nat) (srcPath : String) (dest : Option FsTree)
          (depth : Nat),
        destIsDir dest = true → basenameOf srcPath = name →
        copyStat (.file p content) srcPath dest parent depth =
          [.statQ srcPath, .openRead srcPath, .statQ parent,
           .report .destPathTooLong] := by
  constructor
  · intro a b s h
    simp only [joinPath] at h
    split at h
    · cases h
    · simp only [Option.some.injEq] at h
      subst h
      exact ⟨rfl, by omega⟩
  · intro parent name hlong
    have hj : joinPath parent name = none := by
      simp only [joinPath]
      rw [if_pos hlong]
    refine ⟨hj, ?_, ?_, ?_⟩
    · intro child rest depth
      simp only [deleteKids, hj]
    · intro other child rest destCs depth
      constructor
      · simp only [copyKids, hj]
      · cases ho : joinPath other name with
        | none => simp only [copyKids, hj, ho]
        | some sp => simp only [copyKids, hj, ho]
    · intro p content srcPath dest depth hdd hbase
      simp only [copyStat]
      rw [if_pos hdd, hbase, hj]

/-- A 600-character name, long enough to overflow any composed path. -/
def longPathName : String := String.mk (List.replicate 600 'a')

set_option maxRecDepth 8000 in
/-- Witness for C4: joining the 600-character name overflows `MAX_PATH`, is
refused, and the delete scan reports the explicit error without recursing. -/
theorem C4_witness :
    joinPath "p" longPathName = none ∧
    deleteKids "p" [(longPathName, .file 0 [])] 0 =
      ([.report .pathTooLong], [(longPathName, .file 0 [])], true) := by
  have h := C4_composed_paths_never_truncated.2 "p" longPathName (by decide)
  exact ⟨h.1, h.2.1 (.file 0 []) [] 0⟩

/-- Claim C5: delete should query metadata without following a symbolic link
at the final component and act only on the link.  The code uses `stat`
(myshall.c:681, which follows links — despite the comment claiming
otherwise), so deleting a symlink to a directory enumerates the target and
unlinks the children of the target (`unlink "lnk/f"` below), then fails the
`rmdir` on the link itself. -/
theorem C5_delete_follows_symlink :
    recursive_delete "lnk" (.symlink (.dir 0 [("f", .file 0 [])])) 0 =
      ([.statQ "lnk", .opendirOp "lnk", .statQ "lnk/f", .unlink "lnk/f",
        .rmdirOp "lnk", .report .rmdirFailed],
       some (.symlink (.dir 0 []))) := by
  have hj : joinPath "lnk" "f" = some "lnk/f" := by decide
  simp [recursive_delete, deleteStat, deleteKids, hj]

/-- Claim C10: `mv -r` is a recursive copy followed unconditionally by a
recursive delete of the source (myshall.c:445-447); since the tree operations
return no status, the delete runs and determines the final state of the
source even when the copy reported errors. -/
theorem C10_mv_deletes_source_unconditionally (srcT : FsTree) (srcPath : String)
    (destT : Option FsTree) (destPath : String)
    (hfail : (recursive_copy srcT srcPath destT destPath 0).any isReport = true) :
    (builtin_mv_recursive srcT srcPath destT destPath).1 =
      recursive_copy srcT srcPath destT destPath 0 ++
        (recursive_delete srcPath srcT 0).1 ∧
    (builtin_mv_recursive srcT srcPath destT destPath).2 =
      (recursive_delete srcPath srcT 0).2 :=
  ⟨rfl, rfl⟩

/-- Witness for C10: copying directory `s` onto the existing file `d` fails
with a type-mismatch error, yet the source directory is deleted anyway. -/
theorem C10_witness :
    (recursive_copy (.dir 0 []) "s" (some (.file 0 [])) "d" 0).any isReport = true ∧
    (builtin_mv_recursive (.dir 0 []) "s" (some (.file 0 [])) "d").2 =
      (recursive_delete "s" (.dir 0 []) 0).2 ∧
    (builtin_mv_recursive (.dir 0 []) "s" (some (.file 0 [])) "d").2 = none := by
  have hfail : (recursive_copy (.dir 0 []) "s" (some (.file 0 [])) "d" 0).any
      isReport = true := by
    simp [recursive_copy, copyStat, destExistsNonDir, resolve, isRealDir, isReport]
  refine ⟨hfail, (C10_mv_deletes_source_unconditionally (.dir 0 []) "s"
    (some (.file 0 [])) "d" hfail).2, ?_⟩
  simp [builtin_mv_recursive, recursive_delete, deleteStat, deleteKids]
